import Mathlib

/-
Shallow embedding of qcodes/utils/multiprocessing.py.

The file models the controller-side behaviour of:
  * ServerManager.write / ask / halt / close and the helpers
    _check_for_errors and _check_response (error reconstruction included);
  * StreamQueue.connect / disconnect / get;
  * _SQWriter.write.

Queues are modelled as lists (head = oldest element).  The content of the
response channel that is already waiting when ask() starts is `stale`;
responses that become available after the query is enqueued are `arrivals`;
the error channel content at checking time is `errors`.  A blocking get on
an empty channel that nothing will refill is modelled by a `blocked`
outcome.  Texts are opaque strings; stream chunks are lists of characters.
-/

/-- Python whitespace characters, as removed by str.rstrip: the ASCII
whitespace controls and space, the extra bidirectional controls, the next
line character, and the Unicode separator characters (category Zs plus the
line and paragraph separators). -/
def isPySpace (c : Char) : Bool :=
  c == ' ' || c == '\t' || c == '\n' || c == '\r' || c == '\x0b' ||
  c == '\x0c' || c == '\x1c' || c == '\x1d' || c == '\x1e' ||
  c == '\x1f' || c == '\x85' || c == '\xa0' || c == '\u1680' ||
  c == '\u2000' || c == '\u2001' || c == '\u2002' || c == '\u2003' ||
  c == '\u2004' || c == '\u2005' || c == '\u2006' || c == '\u2007' ||
  c == '\u2008' || c == '\u2009' || c == '\u200a' || c == '\u2028' ||
  c == '\u2029' || c == '\u202f' || c == '\u205f' || c == '\u3000'

/-- Embeds errstr.rstrip: drop trailing whitespace characters. -/
def rstripL (l : List Char) : List Char :=
  (l.reverse.dropWhile isPySpace).reverse

/-- Embeds errstr.rsplit(newline, 1) last component: the suffix of the text
after its last newline (the whole text when it has none). -/
def afterLastNL (l : List Char) : List Char :=
  (l.reverse.takeWhile (fun c => !(c == '\n'))).reverse

/-- Embeds line.split(colon) first component: the longest prefix free of the
colon separator. -/
def beforeColon (l : List Char) : List Char :=
  l.takeWhile (fun c => !(c == ':'))

/-- Split a character list into its logical lines at newline characters;
always returns at least one (possibly empty) line. -/
def splitNL : List Char → List (List Char)
  | [] => [[]]
  | c :: r =>
    match splitNL r with
    | [] => [[]]
    | t :: ts => if c = '\n' then [] :: t :: ts else (c :: t) :: ts

/-- Join line pieces, separating them by a newline followed by the given
header; used as the specification-side reading of the per-line re-prefixing
performed by StreamQueue.get. -/
def joinHead (head : List Char) : List (List Char) → List Char
  | [] => []
  | [t] => t
  | t :: ts => t ++ '\n' :: head ++ joinHead head ts

/-- Embeds msg.replace(newline, newline + line_head) from StreamQueue.get:
every newline is kept and immediately followed by the header. -/
def replHead (head : List Char) : List Char → List Char
  | [] => []
  | c :: r => (if c = '\n' then '\n' :: head else [c]) ++ replHead head r

/-- Models the exception names of the Python builtins module that end in
the word Error, the table consulted by getattr(builtins, err_type_str,
None) inside ServerManager._check_for_errors: every such name of Python
3.6, the alias names included.  (The Windows-only alias of OSError is not
present on the modelled platform and is left out.) -/
def pythonBuiltinErrors : List String :=
  ["ArithmeticError", "AssertionError", "AttributeError",
   "BlockingIOError", "BrokenPipeError", "BufferError",
   "ChildProcessError", "ConnectionAbortedError", "ConnectionError",
   "ConnectionRefusedError", "ConnectionResetError", "EOFError",
   "EnvironmentError", "FileExistsError", "FileNotFoundError",
   "FloatingPointError", "IOError", "ImportError", "IndentationError",
   "IndexError", "InterruptedError", "IsADirectoryError", "KeyError",
   "LookupError", "MemoryError", "ModuleNotFoundError", "NameError",
   "NotADirectoryError", "NotImplementedError", "OSError", "OverflowError",
   "PermissionError", "ProcessLookupError", "RecursionError",
   "ReferenceError", "RuntimeError", "SyntaxError", "SystemError",
   "TabError", "TimeoutError", "TypeError", "UnboundLocalError",
   "UnicodeDecodeError", "UnicodeEncodeError", "UnicodeError",
   "UnicodeTranslateError", "ValueError", "ZeroDivisionError"]

/-- Models the class the builtins lookup actually returns for a name: the
alias names of OSError resolve to the OSError class itself, every other
builtin error name names its own class.  The class, not the looked-up
name, is what _check_for_errors raises. -/
def resolveBuiltinAlias (t : String) : String :=
  if t = "IOError" ∨ t = "EnvironmentError" then "OSError" else t

/-- Embeds err_type_str = errstr.rstrip().rsplit(newline, 1)[-1].split(colon)[0]
on character lists. -/
def errTypeStrL (l : List Char) : List Char :=
  beforeColon (afterLastNL (rstripL l))

/-- The same extraction packaged on strings. -/
def errTypeStr (s : String) : String :=
  ⟨errTypeStrL s.data⟩

/-- Embeds err_type_str.endswith applied to the word Error. -/
def endsWithError (s : String) : Bool :=
  "Error".data.isSuffixOf s.data

/-- Embeds the error-type selection of ServerManager._check_for_errors: when
the extracted token ends in the word Error and names a builtin exception
the class resolved by the lookup is used (so the alias names of OSError
give OSError); otherwise the generic RuntimeError fallback is used.  (The
two lookups in globals() and locals() in the source are dead: the first
tests the constant None for dict membership and the enclosing scopes bind
no name ending in the word Error.) -/
def errTypeOf (s : String) : String :=
  let t := errTypeStr s
  if endsWithError t = true ∧ t ∈ pythonBuiltinErrors then
    resolveBuiltinAlias t
  else "RuntimeError"

/-- A reconstructed Python exception: the selected type name and the
message it is raised with. -/
structure PyErr where
  kind : String
  msg : String
deriving DecidableEq

/-- Embeds the raise at the end of _check_for_errors: the banner names the
worker and the full diagnostic text follows after a blank line. -/
def buildRemoteError (name errstr : String) : PyErr :=
  ⟨errTypeOf errstr, "*** error on " ++ name ++ " ***" ++ "\n\n" ++ errstr⟩

/-- The reserved response value signalling that an error follows. -/
def SERVER_ERR : String := "~~ERR~~"

/-- Outcome of ServerManager._check_for_errors. -/
inductive ErrCheck
  | normal
  | raised (e : PyErr)
  | blocked
deriving DecidableEq

/-- Embeds ServerManager._check_for_errors(expect_error): when an error is
expected or the error channel is non-empty, the response channel is drained
and the first error record is fetched and raised; fetching from an empty
error channel blocks (the get is a blocking one).  Otherwise nothing
happens. -/
def checkForErrors (name : String) (expect : Bool) (errors : List String) :
    ErrCheck :=
  if expect || !errors.isEmpty then
    match errors with
    | [] => .blocked
    | e :: _ => .raised (buildRemoteError name e)
  else .normal

/-- Result of ServerManager.write: the error-check outcome, the request
channel content after the call, and the response channel content after the
call. -/
structure WriteResult where
  check : ErrCheck
  queryOut : List String
  responseLeft : List String
deriving DecidableEq

/-- Embeds ServerManager.write: enqueue the query on the request channel,
then run _check_for_errors with no expected error; the response channel is
drained exactly when the error channel is non-empty. -/
def writeRun (name : String) (queries : List String) (q : String)
    (responses errors : List String) : WriteResult :=
  ⟨checkForErrors name false errors,
   queries ++ [q],
   if errors.isEmpty then responses else []⟩

/-- Events performed by ask() on the shared state, in order. -/
inductive AskEv
  | acquire
  | drainPre (v : String)
  | enqueue (q : String)
  | recvFirst (v : String)
  | drainPost (v : String)
  | release
deriving DecidableEq

/-- Outcome of ServerManager.ask. -/
inductive AskOutcome
  | ok (v : String)
  | raised (e : PyErr)
  | blocked
deriving DecidableEq

/-- Result of ServerManager.ask: its outcome and the ordered trace of its
actions on the lock and the channels. -/
structure AskResult where
  outcome : AskOutcome
  trace : List AskEv
deriving DecidableEq

/-- Embeds ServerManager.ask.  Under the query lock: drain every response
already waiting (recording whether any was the error sentinel), enqueue the
query, then block on the response channel.  The get carries no timeout, so
with no arrival the call blocks inside the lock.  After a first arrival,
every further immediately-available response is drained and the last value
kept; finally _check_for_errors runs with the accumulated sentinel flag.
The computed timeout local of the source is dead and does not appear. -/
def askRun (name q : String) (stale arrivals errors : List String) :
    AskResult :=
  let expectPre := stale.any (fun v => v == SERVER_ERR)
  let preTrace := stale.map AskEv.drainPre
  match arrivals with
  | [] =>
    ⟨.blocked, AskEv.acquire :: (preTrace ++ [AskEv.enqueue q])⟩
  | a :: rest =>
    let res := rest.getLastD a
    let expect := expectPre || (a :: rest).any (fun v => v == SERVER_ERR)
    let postRecv := AskEv.recvFirst a :: rest.map AskEv.drainPost
    match checkForErrors name expect errors with
    | .normal =>
      ⟨.ok res,
       AskEv.acquire ::
         (preTrace ++ AskEv.enqueue q :: (postRecv ++ [AskEv.release]))⟩
    | .raised e =>
      ⟨.raised e,
       AskEv.acquire ::
         (preTrace ++ AskEv.enqueue q :: (postRecv ++ [AskEv.release]))⟩
    | .blocked =>
      ⟨.blocked,
       AskEv.acquire :: (preTrace ++ AskEv.enqueue q :: postRecv)⟩

/-- Outcome of ServerManager.halt: normal return (with the flag recording
whether the worker had to be terminated forcibly, which is printed, not
raised) or a propagated exception. -/
inductive HaltOutcome
  | normal (forced : Bool)
  | raised (e : PyErr)
deriving DecidableEq

/-- Result of ServerManager.halt: its outcome and the request channel
content after the call. -/
structure HaltResult where
  outcome : HaltOutcome
  queryOut : List String
deriving DecidableEq

/-- Embeds ServerManager.halt: when the worker is alive the reserved halt
query is sent through write (whose error check can raise); then the worker
is joined for up to the timeout, and when it is still alive afterwards it
is terminated and the forced termination printed.  `aliveAfterJoin` is the
environment's answer to the second is_alive test. -/
def haltRun (name : String) (alive aliveAfterJoin : Bool)
    (queries responses errors : List String) : HaltResult :=
  if alive then
    let w := writeRun name queries "halt" responses errors
    match w.check with
    | .raised e => ⟨.raised e, w.queryOut⟩
    | _ => ⟨.normal aliveAfterJoin, w.queryOut⟩
  else
    ⟨.normal aliveAfterJoin, queries⟩

/-- A message on the StreamQueue: formatted timestamp, participant name and
text chunk. -/
structure SQMsg where
  ts : List Char
  sname : List Char
  msg : List Char
deriving DecidableEq

/-- Consumer-local state of StreamQueue.get: the participant of the last
message and whether the cursor is at a line start. -/
structure SQState where
  lastStream : Option (List Char)
  onNewLine : Bool
deriving DecidableEq

/-- Embeds line_head: a bracketed timestamp-and-participant header. -/
def lineHead (ts sname : List Char) : List Char :=
  '[' :: (ts ++ ' ' :: sname ++ [']', ' '])

/-- Embeds the drain loop of StreamQueue.get.  For each message a header is
prepended when the cursor is at a line start, and a newline plus header
when the participant changed mid-line; inner newlines of the chunk are
re-prefixed with the header.  Returns none where the source would raise an
IndexError indexing into an empty chunk. -/
def sqGet : List SQMsg → SQState → Option (List Char × SQState)
  | [], st => some ([], st)
  | m :: rest, st =>
    match m.msg.getLast? with
    | none => none
    | some lastc =>
      let head := lineHead m.ts m.sname
      let pre : List Char :=
        if st.onNewLine then head
        else if some m.sname ≠ st.lastStream then '\n' :: head else []
      let body := replHead head m.msg.dropLast ++ [lastc]
      match sqGet rest ⟨some m.sname, lastc == '\n'⟩ with
      | none => none
      | some (out, st2) => some (pre ++ body ++ out, st2)

/-- Embeds StreamQueue.get including the final refresh of the shared
last-read timestamp, which only happens when the drain completes. -/
def streamQueueGet (queue : List SQMsg) (st : SQState) (now : Nat) :
    Option (List Char × SQState × Nat) :=
  match sqGet queue st with
  | none => none
  | some (out, st2) => some (out, st2, now)

/-- Renders a drained queue the way the specification words it: a header is
emitted exactly when the active participant changes or a new line begins
(on a mid-line participant change the header sits on a fresh line), the
chunk is split into its logical lines which are re-joined with the header
after every inner newline, and the consumer state advances to the message's
participant and its final character. -/
def specRender : List SQMsg → SQState → List Char
  | [], _ => []
  | m :: rest, st =>
    let head := lineHead m.ts m.sname
    let headerNeeded : Bool :=
      st.onNewLine || decide (st.lastStream ≠ some m.sname)
    let pre : List Char :=
      if headerNeeded then (if st.onNewLine then head else '\n' :: head)
      else []
    let lastc := m.msg.getLastD ' '
    let body := joinHead head (splitNL m.msg.dropLast) ++ [lastc]
    pre ++ body ++ specRender rest ⟨some m.sname, lastc == '\n'⟩

/-- The consumer state left behind by a full drain, per the specification:
the last message's participant and whether its chunk ended a line. -/
def specFinalState : List SQMsg → SQState → SQState
  | [], st => st
  | m :: rest, _ =>
    specFinalState rest ⟨some m.sname, m.msg.getLastD ' ' == '\n'⟩

/-- Embeds StreamQueue.connect: saving the current output destinations
while some are already saved is the double-connect usage error. -/
def sqConnect (connectedAlready : Bool) : Except String Bool :=
  if connectedAlready then .error "StreamQueue is already connected"
  else .ok true

/-- Embeds StreamQueue.disconnect: restoring the saved output destinations
when none are saved is the disconnect-while-absent usage error. -/
def sqDisconnect (connectedAlready : Bool) : Except String Bool :=
  if connectedAlready then .ok false
  else .error "StreamQueue is not connected"

/-- Outcome of calling a manager operation after close(). -/
inductive ClosedOutcome
  | normal
  | attrError
deriving DecidableEq

/-- Attributes a ServerManager owns after construction. -/
def mgrAttrs : List String :=
  ["_query_queue", "_response_queue", "_error_queue", "_server_class",
   "_server_extras", "query_lock", "uuid", "name", "query_timeout",
   "_server"]

/-- Embeds close(): the three channel attributes are killed and deleted and
the query lock is deleted; every other attribute survives. -/
def attrsAfterClose (attrs : List String) : List String :=
  attrs.filter (fun a =>
    !(a == "_query_queue" || a == "_response_queue" ||
      a == "_error_queue" || a == "query_lock"))

/-- Attributes ServerManager.write reads: the request channel to enqueue,
then the error channel in _check_for_errors. -/
def writeTouches : List String := ["_query_queue", "_error_queue"]

/-- Attributes ServerManager.ask reads, the pairing lock first. -/
def askTouches : List String :=
  ["query_lock", "_response_queue", "_query_queue", "_error_queue"]

/-- Attributes ServerManager.halt reads on a closed manager: only the
worker handle, since the worker is no longer alive so the stop query is
never sent. -/
def haltTouches : List String := ["_server"]

/-- Attributes ServerManager.restart reads in the calling process: halt's
worker handle plus what respawning reads. -/
def restartTouches : List String :=
  ["_server", "_server_class", "_server_extras", "name"]

/-- Attributes ServerManager.close reads unconditionally: none, every
deletion is guarded by hasattr. -/
def closeTouches : List String := []

/-- A manager operation on a closed manager raises exactly when it reads an
attribute that close() deleted. -/
def opOnClosed (touches : List String) : ClosedOutcome :=
  if touches.all (fun a => (attrsAfterClose mgrAttrs).contains a)
  then .normal else .attrError

/-- Threshold (seconds) after which _SQWriter.write mirrors to the real
output. -/
def MIN_READ_TIME : Nat := 3

/-- Result of _SQWriter.write: the stream queue after the call, whether the
chunk was mirrored to the real output, whether an exception propagated, and
whether the original output destinations were put back before it did. -/
structure SQWriteResult where
  queue : List SQMsg
  mirrored : Bool
  raised : Bool
  restoredStreams : Bool
deriving DecidableEq

/-- Embeds _SQWriter.write: empty chunks are ignored; otherwise the message
triple is enqueued and, when the time since the last drain exceeds
MIN_READ_TIME and the chunk is not a bare newline, the formatted line is
additionally printed to the real output (a passthrough that does not touch
the queue).  `putRaises` injects a failure of the enqueue, at which the
handler restores the original destinations and re-raises. -/
def sqwWrite (ts sname msg : List Char) (queueAge : Nat)
    (queue : List SQMsg) (putRaises : Bool) : SQWriteResult :=
  if msg = [] then ⟨queue, false, false, false⟩
  else if putRaises then ⟨queue, false, true, true⟩
  else
    ⟨queue ++ [⟨ts, sname, msg⟩],
     decide (MIN_READ_TIME < queueAge) && !(msg == ['\n']),
     false, false⟩

theorem takeWhileConcatNot {α : Type} (p : α → Bool) (y : α)
    (hy : p y = false) (xs : List α) :
    (xs ++ [y]).takeWhile p = xs.takeWhile p := by
  induction xs with
  | nil => simp [List.takeWhile_cons, hy]
  | cons a l ih =>
    by_cases hpa : p a = true
    · simp [List.takeWhile_cons, hpa, ih]
    · simp only [Bool.not_eq_true] at hpa
      simp [List.takeWhile_cons, hpa]

theorem takeWhileAppendNot {α : Type} (p : α → Bool) (xs ys : List α)
    (h : ∃ x ∈ xs, p x = false) :
    (xs ++ ys).takeWhile p = xs.takeWhile p := by
  induction xs with
  | nil => simp at h
  | cons a l ih =>
    by_cases hpa : p a = true
    · have hl : ∃ x ∈ l, p x = false := by
        rcases h with ⟨x, hx, hpx⟩
        rcases List.mem_cons.mp hx with rfl | hxl
        · rw [hpa] at hpx; cases hpx
        · exact ⟨x, hxl, hpx⟩
      simp [List.takeWhile_cons, hpa, ih hl]
    · simp only [Bool.not_eq_true] at hpa
      simp [List.takeWhile_cons, hpa]

theorem takeWhileAppendAll {α : Type} (p : α → Bool) (xs ys : List α)
    (h : ∀ x ∈ xs, p x = true) :
    (xs ++ ys).takeWhile p = xs ++ ys.takeWhile p := by
  induction xs with
  | nil => simp
  | cons a l ih =>
    have hpa : p a = true := h a (List.mem_cons_self a l)
    have hl : ∀ x ∈ l, p x = true := fun x hx => h x (List.mem_cons_of_mem a hx)
    simp [List.takeWhile_cons, hpa, ih hl]

theorem splitNL_ne_nil (l : List Char) : splitNL l ≠ [] := by
  cases l with
  | nil => simp [splitNL]
  | cons c r =>
    cases h : splitNL r with
    | nil => simp [splitNL, h]
    | cons t ts =>
      simp only [splitNL, h]
      split <;> simp

theorem splitNL_of_not_mem {l : List Char} (h : '\n' ∉ l) :
    splitNL l = [l] := by
  induction l with
  | nil => rfl
  | cons c r ih =>
    have hc : c ≠ '\n' := fun hc => h (hc ▸ List.mem_cons_self c r)
    have hr : '\n' ∉ r := fun hr => h (List.mem_cons_of_mem c hr)
    simp [splitNL, ih hr, hc]

theorem splitNL_length (l : List Char) :
    (splitNL l).length = l.count '\n' + 1 := by
  induction l with
  | nil => simp [splitNL]
  | cons c r ih =>
    cases h : splitNL r with
    | nil => exact absurd h (splitNL_ne_nil r)
    | cons t ts =>
      by_cases hc : c = '\n'
      · subst hc
        simp [splitNL, h, List.count_cons]
        rw [h] at ih
        simpa using ih
      · simp [splitNL, h, hc, List.count_cons]
        rw [h] at ih
        simpa using ih

theorem splitNL_getLast (l : List Char) :
    (splitNL l).getLast? = some (afterLastNL l) := by
  induction l with
  | nil => rfl
  | cons c r ih =>
    cases hsp : splitNL r with
    | nil => exact absurd hsp (splitNL_ne_nil r)
    | cons t ts =>
      rw [hsp] at ih
      by_cases hc : c = '\n'
      · subst hc
        have hafter : afterLastNL ('\n' :: r) = afterLastNL r := by
          unfold afterLastNL
          rw [List.reverse_cons,
            takeWhileConcatNot (fun ch => !(ch == '\n')) '\n' (by decide)
              r.reverse]
        rw [hafter, ← ih]
        simp [splitNL, hsp, List.getLast?_cons_cons]
      · cases ts with
        | nil =>
          have hcount : r.count '\n' = 0 := by
            have h1 := splitNL_length r
            rw [hsp] at h1
            simpa using h1.symm
          have hnot : '\n' ∉ r := by
            intro hmem
            have h2 : 0 < r.count '\n' := List.count_pos_iff.mpr hmem
            omega
          have htr : t = r := by
            have h2 := splitNL_of_not_mem hnot
            rw [hsp] at h2
            injection h2
          have hafter : afterLastNL (c :: r) = c :: r := by
            unfold afterLastNL
            rw [List.reverse_cons,
              takeWhileAppendAll (fun ch => !(ch == '\n'))
                r.reverse [c]
                (fun x hx => by
                  have hxne : x ≠ '\n' := fun he =>
                    hnot (he ▸ List.mem_reverse.mp hx)
                  simp [hxne])]
            have hone : List.takeWhile (fun ch => !(ch == '\n')) [c] = [c] := by
              simp [List.takeWhile_cons, hc]
            rw [hone]
            simp
          rw [hafter]
          subst htr
          simp [splitNL, hsp, hc]
        | cons t2 ts2 =>
          have hmem : '\n' ∈ r := by
            have h1 := splitNL_length r
            rw [hsp] at h1
            have h2 : 0 < r.count '\n' := by
              simp only [List.length_cons] at h1
              omega
            exact List.count_pos_iff.mp h2
          have hafter : afterLastNL (c :: r) = afterLastNL r := by
            unfold afterLastNL
            rw [List.reverse_cons,
              takeWhileAppendNot (fun ch => !(ch == '\n')) r.reverse
                [c] ⟨'\n', List.mem_reverse.mpr hmem, by decide⟩]
          rw [hafter, ← ih]
          simp [splitNL, hsp, hc, List.getLast?_cons_cons]

theorem replHead_eq_joinHead (head l : List Char) :
    replHead head l = joinHead head (splitNL l) := by
  induction l with
  | nil => rfl
  | cons c r ih =>
    cases hsp : splitNL r with
    | nil => exact absurd hsp (splitNL_ne_nil r)
    | cons t ts =>
      rw [hsp] at ih
      by_cases hc : c = '\n'
      · subst hc
        simp only [replHead, if_pos rfl, splitNL, hsp, joinHead]
        rw [ih]
        simp [joinHead]
      · cases ts with
        | nil =>
          simp only [replHead, if_neg hc, splitNL, hsp, joinHead]
          rw [ih]
          simp [joinHead]
        | cons t2 ts2 =>
          simp only [replHead, if_neg hc, splitNL, hsp, joinHead]
          rw [ih]
          simp [joinHead]

theorem consGetLastD {α : Type} (a : α) (l : List α) :
    (a :: l).getLast? = some (l.getLastD a) := by
  induction l generalizing a with
  | nil => rfl
  | cons b m ih =>
    rw [List.getLast?_cons_cons, ih, List.getLastD_cons]

theorem getLastD_mem {α : Type} (a : α) (l : List α) :
    l.getLastD a ∈ a :: l := by
  induction l generalizing a with
  | nil => simp
  | cons b m ih =>
    rw [List.getLastD_cons]
    rcases List.mem_cons.mp (ih b) with h | h
    · rw [h]; simp
    · exact List.mem_cons_of_mem a (List.mem_cons_of_mem b h)

theorem getLastD_of_getLast {α : Type} {l : List α} {v : α} (d : α)
    (h : l.getLast? = some v) : l.getLastD d = v := by
  cases l with
  | nil => cases h
  | cons a m =>
    rw [consGetLastD] at h
    rw [List.getLastD_cons]
    injection h

theorem checkForErrors_cons (name : String) (expect : Bool) (e : String)
    (es : List String) :
    checkForErrors name expect (e :: es) = .raised (buildRemoteError name e) := by
  simp [checkForErrors]

theorem checkForErrors_nil (name : String) (expect : Bool) :
    checkForErrors name expect [] = if expect then .blocked else .normal := by
  cases expect <;> rfl

theorem getLastConcat {α : Type} (l : List α) (x : α) :
    (l ++ [x]).getLast? = some x := by
  induction l with
  | nil => rfl
  | cons a m ih =>
    cases hm : m ++ [x] with
    | nil => simp at hm
    | cons b mb =>
      rw [List.cons_append, hm, List.getLast?_cons_cons, ← hm, ih]

/-- C1: the specification says that when no response arrives within the
timeout, ask raises RemoteFailure if the error channel is non-empty and
LocalTimeout otherwise, never waiting beyond the timeout.  The code instead
performs the blocking response-channel get with no timeout argument: its
computed timeout local is dead, the Empty handler implementing exactly the
claimed behaviour is unreachable, and with no arriving response ask blocks
forever regardless of the error channel's content, raising neither error. -/
theorem ask_without_response_blocks (name q : String)
    (stale errors : List String) :
    (askRun name q stale [] errors).outcome = AskOutcome.blocked := rfl

/-- C2: ask holds the pairing lock for the whole exchange (its trace starts
with the acquire and, whenever the call completes, ends with the release),
before enqueuing the query it drains and discards every response already
waiting, and a returned value is the last response drained after the
enqueue. -/
theorem ask_lock_drain_and_last (name q : String)
    (stale arrivals errors : List String) :
    (askRun name q stale arrivals errors).trace.head? = some AskEv.acquire
    ∧ (∃ post, (askRun name q stale arrivals errors).trace =
        AskEv.acquire :: (stale.map AskEv.drainPre ++ AskEv.enqueue q :: post))
    ∧ ((askRun name q stale arrivals errors).outcome ≠ AskOutcome.blocked →
        (askRun name q stale arrivals errors).trace.getLast? =
          some AskEv.release)
    ∧ (∀ v, (askRun name q stale arrivals errors).outcome = AskOutcome.ok v →
        arrivals.getLast? = some v) := by
  rcases arrivals with _ | ⟨a, rest⟩
  · refine ⟨rfl, ⟨[], rfl⟩, ?_, ?_⟩
    · intro h
      exact absurd rfl h
    · intro v h
      cases h
  · cases hc : checkForErrors name
        (stale.any (fun v => v == SERVER_ERR) ||
          (a :: rest).any (fun v => v == SERVER_ERR)) errors with
    | normal =>
      refine ⟨by simp only [askRun, hc]; rfl, ?_, ?_, ?_⟩
      · refine ⟨AskEv.recvFirst a ::
          (rest.map AskEv.drainPost ++ [AskEv.release]), ?_⟩
        simp only [askRun, hc]
        rfl
      · intro _
        have htr : (askRun name q stale (a :: rest) errors).trace =
            (AskEv.acquire :: (stale.map AskEv.drainPre ++
              AskEv.enqueue q :: AskEv.recvFirst a ::
                rest.map AskEv.drainPost)) ++ [AskEv.release] := by
          simp only [askRun, hc]
          simp [List.append_assoc]
        rw [htr, getLastConcat]
      · intro v h
        simp only [askRun, hc] at h
        injection h with hv
        rw [consGetLastD, hv]
    | raised e =>
      refine ⟨by simp only [askRun, hc]; rfl, ?_, ?_, ?_⟩
      · refine ⟨AskEv.recvFirst a ::
          (rest.map AskEv.drainPost ++ [AskEv.release]), ?_⟩
        simp only [askRun, hc]
        rfl
      · intro _
        have htr : (askRun name q stale (a :: rest) errors).trace =
            (AskEv.acquire :: (stale.map AskEv.drainPre ++
              AskEv.enqueue q :: AskEv.recvFirst a ::
                rest.map AskEv.drainPost)) ++ [AskEv.release] := by
          simp only [askRun, hc]
          simp [List.append_assoc]
        rw [htr, getLastConcat]
      · intro v h
        simp only [askRun, hc] at h
        cases h
    | blocked =>
      refine ⟨by simp only [askRun, hc]; rfl, ?_, ?_, ?_⟩
      · refine ⟨AskEv.recvFirst a :: rest.map AskEv.drainPost, ?_⟩
        simp only [askRun, hc]
      · intro h
        have hout : (askRun name q stale (a :: rest) errors).outcome =
            AskOutcome.blocked := by simp only [askRun, hc]
        exact absurd hout h
      · intro v h
        simp only [askRun, hc] at h
        cases h

/-- Witness for the lock, drain and last-value property at a concrete
exchange with one stale response and two fresh responses. -/
theorem ask_lock_drain_and_last_witness :
    (askRun "mgr" "cmd" ["old"] ["r1", "r2"] []).trace.head? =
      some AskEv.acquire
    ∧ (askRun "mgr" "cmd" ["old"] ["r1", "r2"] []).trace.getLast? =
      some AskEv.release
    ∧ (["r1", "r2"] : List String).getLast? = some "r2" := by
  have h := ask_lock_drain_and_last "mgr" "cmd" ["old"] ["r1", "r2"] []
  exact ⟨h.1, h.2.2.1 (by decide), h.2.2.2 "r2" (by decide)⟩

theorem checkForErrors_eq_normal {name : String} {expect : Bool}
    {errors : List String}
    (h : checkForErrors name expect errors = ErrCheck.normal) :
    expect = false ∧ errors = [] := by
  cases expect with
  | false =>
    cases errors with
    | nil => exact ⟨rfl, rfl⟩
    | cons e es => rw [checkForErrors_cons] at h; cases h
  | true =>
    cases errors with
    | nil => rw [checkForErrors_nil] at h; simp at h
    | cons e es => rw [checkForErrors_cons] at h; cases h

theorem askRun_outcome_cons (name q a : String)
    (stale rest errors : List String) :
    (askRun name q stale (a :: rest) errors).outcome =
      match checkForErrors name
          (stale.any (fun v => v == SERVER_ERR) ||
            (a :: rest).any (fun v => v == SERVER_ERR)) errors with
      | .normal => AskOutcome.ok (rest.getLastD a)
      | .raised e => AskOutcome.raised e
      | .blocked => AskOutcome.blocked := by
  cases hc : checkForErrors name
      (stale.any (fun v => v == SERVER_ERR) ||
        (a :: rest).any (fun v => v == SERVER_ERR)) errors <;>
    simp only [askRun, hc]

/-- C3: a drained response equal to the error sentinel is never returned by
ask: whenever ask returns a value, no drained response (stale or fresh) was
the sentinel, and whenever a sentinel was drained during an exchange that
received at least one response while the error channel holds a record, ask
raises the error reconstructed from the channel's first record. -/
theorem ask_sentinel_error_priority (name q : String)
    (stale arrivals errors : List String) :
    (∀ v, (askRun name q stale arrivals errors).outcome = AskOutcome.ok v →
        v ≠ SERVER_ERR ∧ SERVER_ERR ∉ stale ∧ SERVER_ERR ∉ arrivals)
    ∧ ((SERVER_ERR ∈ stale ∨ SERVER_ERR ∈ arrivals) → arrivals ≠ [] →
        ∀ e es, errors = e :: es →
          (askRun name q stale arrivals errors).outcome =
            AskOutcome.raised (buildRemoteError name e)) := by
  rcases arrivals with _ | ⟨a, rest⟩
  · refine ⟨?_, ?_⟩
    · intro v h
      cases h
    · intro _ hne
      exact absurd rfl hne
  · refine ⟨?_, ?_⟩
    · intro v h
      rw [askRun_outcome_cons] at h
      cases hc : checkForErrors name
          (stale.any (fun v => v == SERVER_ERR) ||
            (a :: rest).any (fun v => v == SERVER_ERR)) errors with
      | normal =>
        rw [hc] at h
        injection h with hv
        obtain ⟨hor, -⟩ := checkForErrors_eq_normal hc
        rw [Bool.or_eq_false_iff] at hor
        have hstale : ∀ x ∈ stale, x ≠ SERVER_ERR := by
          intro x hx hxe
          have := List.any_eq_false.mp hor.1 x hx
          simp [hxe] at this
        have harr : ∀ x ∈ a :: rest, x ≠ SERVER_ERR := by
          intro x hx hxe
          have := List.any_eq_false.mp hor.2 x hx
          simp [hxe] at this
        refine ⟨?_, ?_, ?_⟩
        · exact hv ▸ harr _ (getLastD_mem a rest)
        · intro hm
          exact hstale _ hm rfl
        · intro hm
          exact harr _ hm rfl
      | raised e =>
        rw [hc] at h
        cases h
      | blocked =>
        rw [hc] at h
        cases h
    · intro _ _ e es herr
      subst herr
      rw [askRun_outcome_cons, checkForErrors_cons]

/-- Witness for the sentinel-priority property: a stale sentinel followed by
one fresh response with a pending error record makes ask raise the
reconstruction of that record. -/
theorem ask_sentinel_error_priority_witness :
    (askRun "mgr" "cmd" ["~~ERR~~"] ["r"] ["KeyError: boom"]).outcome =
      AskOutcome.raised (buildRemoteError "mgr" "KeyError: boom") := by
  have h := ask_sentinel_error_priority "mgr" "cmd" ["~~ERR~~"] ["r"]
    ["KeyError: boom"]
  exact h.2 (Or.inl (by decide)) (by decide) "KeyError: boom" [] rfl

/-- C4: write enqueues its query on the request channel and then checks the
error channel without blocking; with an empty error channel it returns
normally and leaves the response channel untouched, and with a non-empty
error channel it fully drains the response channel (empty immediately
after) and raises the RemoteFailure reconstructed from the first
ErrorRecord. -/
theorem write_enqueue_then_error_check (name : String)
    (queries : List String) (q : String) (responses errors : List String) :
    (writeRun name queries q responses errors).queryOut = queries ++ [q]
    ∧ (errors = [] →
        (writeRun name queries q responses errors).check = ErrCheck.normal
        ∧ (writeRun name queries q responses errors).responseLeft = responses)
    ∧ (∀ e es, errors = e :: es →
        (writeRun name queries q responses errors).check =
          ErrCheck.raised (buildRemoteError name e)
        ∧ (writeRun name queries q responses errors).responseLeft = []) := by
  refine ⟨rfl, ?_, ?_⟩
  · rintro rfl
    exact ⟨rfl, rfl⟩
  · rintro e es rfl
    refine ⟨checkForErrors_cons name false e es, ?_⟩
    simp [writeRun]

/-- Witness for the write property at a concrete call with a pending error
record and a stale response. -/
theorem write_enqueue_then_error_check_witness :
    (writeRun "mgr" [] "cmd" ["stale"] ["TypeError: t"]).check =
      ErrCheck.raised (buildRemoteError "mgr" "TypeError: t")
    ∧ (writeRun "mgr" [] "cmd" ["stale"] ["TypeError: t"]).responseLeft = []
    ∧ (writeRun "mgr" [] "cmd" ["stale"] ["TypeError: t"]).queryOut =
      ["cmd"] := by
  have h := write_enqueue_then_error_check "mgr" [] "cmd" ["stale"]
    ["TypeError: t"]
  exact ⟨(h.2.2 "TypeError: t" [] rfl).1, (h.2.2 "TypeError: t" [] rfl).2,
    h.1⟩

theorem builtin_ends_with_error :
    ∀ s ∈ pythonBuiltinErrors, endsWithError s = true := by decide

/-- C5: raising from an ErrorRecord extracts the token that precedes the
first colon separator of the record's last line (the last line taken after
stripping trailing whitespace); when that token names a builtin error kind
the raised error carries the matching local kind -- the class the builtins
lookup resolves the name to, which is the identically named class except
for the alias names of OSError -- and otherwise the generic RuntimeError
fallback; and in every case the message is the banner naming the worker
followed by the full captured diagnostic text. -/
theorem error_reconstruction (name errstr : String) :
    (buildRemoteError name errstr).msg =
      "*** error on " ++ name ++ " ***" ++ "\n\n" ++ errstr
    ∧ errTypeStrL errstr.data =
      beforeColon ((splitNL (rstripL errstr.data)).getLastD [])
    ∧ (errTypeStr errstr ∈ pythonBuiltinErrors →
        (buildRemoteError name errstr).kind =
          resolveBuiltinAlias (errTypeStr errstr))
    ∧ (errTypeStr errstr ∉ pythonBuiltinErrors →
        (buildRemoteError name errstr).kind = "RuntimeError") := by
  refine ⟨rfl, ?_, ?_, ?_⟩
  · rw [getLastD_of_getLast [] (splitNL_getLast (rstripL errstr.data))]
    rfl
  · intro hmem
    show errTypeOf errstr = resolveBuiltinAlias (errTypeStr errstr)
    simp only [errTypeOf]
    rw [if_pos ⟨builtin_ends_with_error _ hmem, hmem⟩]
  · intro hne
    show errTypeOf errstr = "RuntimeError"
    simp only [errTypeOf]
    rw [if_neg (fun hcond => hne hcond.2)]

/-- Witness for the error reconstruction at concrete two-line records: one
whose last line starts with an ordinary builtin error name, and one headed
by an alias name of OSError. -/
theorem error_reconstruction_witness :
    (buildRemoteError "srv" "Traceback\nValueError: bad value").kind =
      "ValueError"
    ∧ (buildRemoteError "srv" "Traceback\nValueError: bad value").msg =
      "*** error on srv ***" ++ "\n\n" ++ "Traceback\nValueError: bad value"
    ∧ (buildRemoteError "srv" "Traceback\nIOError: gone").kind =
      "OSError" := by
  have h := error_reconstruction "srv" "Traceback\nValueError: bad value"
  have h2 := error_reconstruction "srv" "Traceback\nIOError: gone"
  refine ⟨?_, h.1, ?_⟩
  · have h3 := h.2.2.1 (by decide)
    rw [h3]
    decide
  · have h4 := h2.2.2.1 (by decide)
    rw [h4]
    decide

/-- C6 counterexample: with the worker alive and one pending ErrorRecord,
halt propagates the RemoteFailure raised by the error check of its own
stop-query send, so halt can fail its caller, contrary to the claim. -/
theorem halt_raises_with_pending_error :
    (haltRun "srv" true false [] [] ["ValueError: boom"]).outcome =
      HaltOutcome.raised (buildRemoteError "srv" "ValueError: boom")
    ∧ (haltRun "srv" true false [] [] ["ValueError: boom"]).outcome ≠
      HaltOutcome.normal false
    ∧ (haltRun "srv" true false [] [] ["ValueError: boom"]).outcome ≠
      HaltOutcome.normal true := by
  exact ⟨rfl, by decide, by decide⟩

/-- C6 (amended): halt on an already-stopped worker is a no-op that does
not raise and sends nothing; halt on a live worker sends the reserved stop
query and, when the error channel is empty, returns normally, reporting
(never raising) a forced termination exactly when the worker is still alive
after the join; but when the error channel is non-empty the stop-query send
itself raises the reconstructed RemoteFailure, so halt can fail its
caller in that one case. -/
theorem halt_behavior (name : String) (alive aliveAfterJoin : Bool)
    (queries responses errors : List String) :
    (alive = false → aliveAfterJoin = false →
        haltRun name alive aliveAfterJoin queries responses errors =
          ⟨HaltOutcome.normal false, queries⟩)
    ∧ (alive = true → errors = [] →
        (haltRun name alive aliveAfterJoin queries responses errors).outcome =
          HaltOutcome.normal aliveAfterJoin
        ∧ (haltRun name alive aliveAfterJoin queries responses errors).queryOut
          = queries ++ ["halt"])
    ∧ (alive = true → ∀ e es, errors = e :: es →
        (haltRun name alive aliveAfterJoin queries responses errors).outcome =
          HaltOutcome.raised (buildRemoteError name e)) := by
  refine ⟨?_, ?_, ?_⟩
  · rintro rfl rfl
    rfl
  · rintro rfl rfl
    exact ⟨rfl, rfl⟩
  · rintro rfl e es rfl
    rfl

/-- Witness for the halt behaviour: a stopped worker gives a silent no-op,
and a live worker with a clean error channel gets the stop query. -/
theorem halt_behavior_witness :
    haltRun "srv" false false [] [] [] = ⟨HaltOutcome.normal false, []⟩
    ∧ (haltRun "srv" true false [] [] []).outcome = HaltOutcome.normal false
    ∧ (haltRun "srv" true false [] [] []).queryOut = ["halt"] := by
  have h1 := halt_behavior "srv" false false [] [] []
  have h2 := halt_behavior "srv" true false [] [] []
  exact ⟨h1.1 rfl rfl, (h2.2.1 rfl rfl).1, by
    have := (h2.2.1 rfl rfl).2
    simpa using this⟩

/-- C7 (amended): a second connect without an intervening disconnect and a
disconnect with no prior connect raise the usage error; after close() has
deleted the channel attributes, write and ask fail at the call site on the
first missing attribute, while halt and close return without raising (they
touch only surviving attributes or guard with hasattr) and restart does not
raise in the calling process. -/
theorem protocol_misuse_surface :
    sqConnect true = Except.error "StreamQueue is already connected"
    ∧ sqConnect false = Except.ok true
    ∧ sqDisconnect false = Except.error "StreamQueue is not connected"
    ∧ sqDisconnect true = Except.ok false
    ∧ opOnClosed writeTouches = ClosedOutcome.attrError
    ∧ opOnClosed askTouches = ClosedOutcome.attrError
    ∧ opOnClosed haltTouches = ClosedOutcome.normal
    ∧ opOnClosed restartTouches = ClosedOutcome.normal
    ∧ opOnClosed closeTouches = ClosedOutcome.normal := by
  exact ⟨rfl, rfl, rfl, rfl, by decide, by decide, by decide, by decide,
    by decide⟩

/-- C7 counterexample: halt() on a closed manager touches only the worker
handle, which close() leaves in place, and returns normally rather than
raising the ProtocolMisuse failure the claim asserts for every manager
operation after close. -/
theorem closed_manager_halt_returns :
    opOnClosed haltTouches = ClosedOutcome.normal
    ∧ opOnClosed haltTouches ≠ ClosedOutcome.attrError := by
  exact ⟨by decide, by decide⟩

theorem sqGet_eq_spec : ∀ (queue : List SQMsg) (st : SQState),
    (∀ m ∈ queue, m.msg ≠ []) →
    sqGet queue st = some (specRender queue st, specFinalState queue st) := by
  intro queue
  induction queue with
  | nil => intro st _; rfl
  | cons m rest ih =>
    intro st h
    have hm : m.msg ≠ [] := h m (List.mem_cons_self m rest)
    have hrest : ∀ x ∈ rest, x.msg ≠ [] :=
      fun x hx => h x (List.mem_cons_of_mem m hx)
    obtain ⟨lastc, hl⟩ : ∃ c, m.msg.getLast? = some c := by
      cases hmm : m.msg with
      | nil => exact absurd hmm hm
      | cons x xs => exact ⟨xs.getLastD x, consGetLastD x xs⟩
    have hld : m.msg.getLastD ' ' = lastc := getLastD_of_getLast ' ' hl
    have hpre : (if st.onNewLine then lineHead m.ts m.sname
        else if some m.sname ≠ st.lastStream then
          '\n' :: lineHead m.ts m.sname else []) =
        (if (st.onNewLine || decide (st.lastStream ≠ some m.sname)) then
          (if st.onNewLine then lineHead m.ts m.sname
            else '\n' :: lineHead m.ts m.sname) else []) := by
      cases hnl : st.onNewLine with
      | true => simp
      | false =>
        by_cases hls : st.lastStream = some m.sname
        · simp [hls]
        · have hne : some m.sname ≠ st.lastStream := fun he => hls he.symm
          simp [hls, hne]
    simp only [sqGet, hl, ih ⟨some m.sname, lastc == '\n'⟩ hrest]
    simp only [specRender, specFinalState, hld]
    rw [hpre, replHead_eq_joinHead]

/-- C8: for every queue of writer messages and every consumer state, get
drains the whole queue and returns the chunks concatenated in queue order,
emitting the bracketed timestamp-participant header exactly when the active
participant changes or a new line begins, with no header before a
same-participant same-line continuation, re-prefixing every inner newline
of a multi-line chunk with the header, and refreshing the shared last-drain
timestamp; in particular the writes hello and world by participants A and B
come out as two separately headered lines in write order. -/
theorem streamqueue_get_formats :
    (∀ (queue : List SQMsg) (st : SQState) (now : Nat),
        (∀ m ∈ queue, m.msg ≠ []) →
        streamQueueGet queue st now =
          some (specRender queue st, specFinalState queue st, now))
    ∧ streamQueueGet
        [⟨"t1".data, "A".data, "hello\n".data⟩,
         ⟨"t2".data, "B".data, "world\n".data⟩]
        ⟨none, true⟩ 9 =
      some ("[t1 A] hello\n[t2 B] world\n".data, ⟨some "B".data, true⟩, 9) := by
  constructor
  · intro queue st now h
    simp only [streamQueueGet, sqGet_eq_spec queue st h]
  · decide

/-- Witness for the get formatting property at a concrete one-message queue
drained mid-line by the same participant (continuation, no header). -/
theorem streamqueue_get_formats_witness :
    streamQueueGet [⟨"t".data, "A".data, "ab".data⟩]
      ⟨some "A".data, false⟩ 4 =
      some (specRender [⟨"t".data, "A".data, "ab".data⟩]
          ⟨some "A".data, false⟩,
        specFinalState [⟨"t".data, "A".data, "ab".data⟩]
          ⟨some "A".data, false⟩, 4) :=
  streamqueue_get_formats.1 _ _ 4 (by decide)

/-- C9: the stream writer ignores an empty chunk, leaving the queue
unchanged; it enqueues a non-empty chunk as one timestamp-participant-chunk
message; it mirrors to the real output exactly when the time since the last
drain exceeds the fixed threshold and the chunk is not a bare newline, the
mirrored case leaving the queue exactly as the enqueue left it; and on an
internal failure it restores the original output destinations before the
failure propagates. -/
theorem sqwriter_write_behavior (ts sname msg : List Char) (queueAge : Nat)
    (queue : List SQMsg) (putRaises : Bool) :
    (msg = [] → sqwWrite ts sname msg queueAge queue putRaises =
        ⟨queue, false, false, false⟩)
    ∧ (msg ≠ [] → putRaises = false →
        (sqwWrite ts sname msg queueAge queue putRaises).queue =
          queue ++ [⟨ts, sname, msg⟩]
        ∧ ((sqwWrite ts sname msg queueAge queue putRaises).mirrored = true ↔
            (MIN_READ_TIME < queueAge ∧ msg ≠ ['\n']))
        ∧ (sqwWrite ts sname msg queueAge queue putRaises).raised = false)
    ∧ (msg ≠ [] → putRaises = true →
        (sqwWrite ts sname msg queueAge queue putRaises).queue = queue
        ∧ (sqwWrite ts sname msg queueAge queue putRaises).raised = true
        ∧ (sqwWrite ts sname msg queueAge queue putRaises).restoredStreams =
          true) := by
  refine ⟨?_, ?_, ?_⟩
  · intro hm
    simp [sqwWrite, hm]
  · intro hm hp
    refine ⟨by simp [sqwWrite, hm, hp], ?_, by simp [sqwWrite, hm, hp]⟩
    simp only [sqwWrite, if_neg hm, hp, if_neg Bool.false_ne_true]
    simp
  · intro hm hp
    simp [sqwWrite, hm, hp]

/-- Witness for the writer behaviour: a stale queue and a chunk ending in a
newline are enqueued and mirrored. -/
theorem sqwriter_write_behavior_witness :
    (sqwWrite "t".data "A".data "x\n".data 5 [] false).queue =
      [⟨"t".data, "A".data, "x\n".data⟩]
    ∧ (sqwWrite "t".data "A".data "x\n".data 5 [] false).mirrored = true := by
  have h := sqwriter_write_behavior "t".data "A".data "x\n".data 5 [] false
  have h2 := h.2.1 (by decide) rfl
  refine ⟨?_, h2.2.1.mpr ⟨by decide, by decide⟩⟩
  have h3 := h2.1
  simpa using h3

/-- C10: the writer only ever enqueues non-empty chunks, so the non-empty
invariant of the stream queue is preserved by every write, and on any queue
satisfying it the first- and last-character accesses of get are
well-defined: the drain completes instead of failing on an empty chunk. -/
theorem sqwriter_nonempty_get_safe (ts sname msg : List Char)
    (queueAge : Nat) (queue : List SQMsg) (putRaises : Bool) (st : SQState)
    (now : Nat) :
    ((∀ m ∈ queue, m.msg ≠ []) →
        ∀ m ∈ (sqwWrite ts sname msg queueAge queue putRaises).queue,
          m.msg ≠ [])
    ∧ ((∀ m ∈ queue, m.msg ≠ []) →
        (streamQueueGet queue st now).isSome = true) := by
  constructor
  · intro h m hm
    by_cases hmsg : msg = []
    · simp only [sqwWrite, if_pos hmsg] at hm
      exact h m hm
    · cases hp : putRaises with
      | true =>
        simp only [sqwWrite, if_neg hmsg, hp, if_pos rfl] at hm
        exact h m hm
      | false =>
        simp only [sqwWrite, if_neg hmsg, hp,
          if_neg Bool.false_ne_true] at hm
        rcases List.mem_append.mp hm with hin | hin
        · exact h m hin
        · rcases List.mem_singleton.mp hin with rfl
          exact hmsg
  · intro h
    simp only [streamQueueGet, sqGet_eq_spec queue st h, Option.isSome_some]

/-- Witness for the non-empty-chunk safety at a concrete one-message
queue. -/
theorem sqwriter_nonempty_get_safe_witness :
    (streamQueueGet [⟨"t".data, "A".data, "x".data⟩]
      ⟨none, true⟩ 3).isSome = true :=
  (sqwriter_nonempty_get_safe "u".data "B".data "y".data 0
    [⟨"t".data, "A".data, "x".data⟩] false ⟨none, true⟩ 3).2 (by decide)
